import Mathlib

/-
Verification of the read-through cache / write-invalidate accessor of the
e-commerce GraphQL API (RedisService + ProductResolver + createProduct
transaction), as a shallow embedding.

Modelling conventions, stated once:
* JS values flowing through the cache and the record store are modelled by the
  inductive `Json` below (numbers as integers, the fragment the catalog uses;
  dates arriving from the store are modelled as their ISO strings).
* The backing key/value store holds strings; `RedisService.set` stores
  `JSON.stringify value` and `RedisService.get` re-parses, returning null for
  an absent key or a string-falsy stored value, exactly as the source does.
  Expiry is enforced by the backing store (per the data model), so the cache
  state below holds the live, unexpired entries; the stored ttl is recorded.
* Failures of the cache layer (connection down, circuit open, timeout) are
  injected through `RedisEnv`; record-store reads are an oracle `StoreEnv`
  mapping each query shape to rows or a failure, and the mutation runs
  against explicit table state with failures injected through `TxEnv`.
* Each operation returns its result together with the new state and a trace
  of the cache and store actions it performed, in order.
-/

namespace Shop

/-- A JSON value: the fragment of JS values the catalog code serializes
(numbers restricted to integers; the resolvers only move ids, names, prices,
stock counts and nested rows through the cache). -/
inductive Json where
  | null
  | bool (b : Bool)
  | num (n : Int)
  | str (s : String)
  | arr (elems : List Json)
  | obj (fields : List (String × Json))
deriving Repr

/-- The double-quote character. -/
def qMark : Char := Char.ofNat 34

/-- The backslash character. -/
def bSlash : Char := Char.ofNat 92

/-- The opening curly bracket. -/
def lBrace : Char := Char.ofNat 123

/-- The closing curly bracket. -/
def rBrace : Char := Char.ofNat 125

/-- JSON string escaping of one character (the catalog's strings only need the
quote and backslash escapes; other characters are emitted verbatim). -/
def escChar (c : Char) : List Char :=
  if c = qMark ∨ c = bSlash then [bSlash, c] else [c]

/-- JSON string escaping of a character list. -/
def escList : List Char → List Char
  | [] => []
  | c :: cs => escChar c ++ escList cs

/-- Decimal digits of a natural number, fuel-recursive so that it computes by
reduction; `natChars` supplies sufficient fuel. -/
def natCharsAux : Nat → Nat → List Char
  | 0, _ => []
  | fuel + 1, n =>
    if n < 10 then [Nat.digitChar n]
    else natCharsAux fuel (n / 10) ++ [Nat.digitChar (n % 10)]

/-- Decimal representation of a natural number. -/
def natChars (n : Nat) : List Char := natCharsAux (n + 1) n

/-- Decimal representation of an integer, as JS prints integral numbers. -/
def intChars (i : Int) : List Char :=
  if i < 0 then '-' :: natChars i.natAbs else natChars i.toNat

mutual
/-- JSON.stringify on the `Json` fragment, producing the character list. -/
def strVal : Json → List Char
  | .null => 'n' :: ['u', 'l', 'l']
  | .bool true => 't' :: ['r', 'u', 'e']
  | .bool false => 'f' :: ['a', 'l', 's', 'e']
  | .num i => intChars i
  | .str s => qMark :: (escList s.data ++ [qMark])
  | .arr [] => ['[', ']']
  | .arr (v :: vs) => '[' :: (strVal v ++ strElems vs)
  | .obj [] => [lBrace, rBrace]
  | .obj (m :: ms) => lBrace :: (strMember m ++ strMembers ms)
/-- Serialization of the remaining array elements, closing the bracket. -/
def strElems : List Json → List Char
  | [] => [']']
  | v :: vs => ',' :: (strVal v ++ strElems vs)
/-- Serialization of one object member. -/
def strMember : String × Json → List Char
  | (k, v) => qMark :: (escList k.data ++ (qMark :: ':' :: strVal v))
/-- Serialization of the remaining object members, closing the brace. -/
def strMembers : List (String × Json) → List Char
  | [] => [rBrace]
  | m :: ms => ',' :: (strMember m ++ strMembers ms)
end

/-- JSON.stringify as a string-producing function. -/
def jsonStringify (v : Json) : String := String.mk (strVal v)

/-- Numeric value of a decimal digit character. -/
def digitVal (c : Char) : Nat := c.toNat - 48

/-- Consume a run of decimal digits, folding them onto an accumulator. -/
def parseNatAux : List Char → Nat → Nat × List Char
  | [], acc => (acc, [])
  | c :: cs, acc =>
    if c.isDigit then parseNatAux cs (acc * 10 + digitVal c) else (acc, c :: cs)

/-- Parse a nonempty run of decimal digits. -/
def parseNat : List Char → Option (Nat × List Char)
  | [] => none
  | c :: cs => if c.isDigit then some (parseNatAux cs (digitVal c)) else none

/-- Parse the body of a JSON string after its opening quote, undoing the
escapes `escChar` emits. -/
def parseStrChars : List Char → Option (List Char × List Char)
  | [] => none
  | c :: cs =>
    if c = qMark then some ([], cs)
    else if c = bSlash then
      match cs with
      | [] => none
      | d :: cs2 => (parseStrChars cs2).map fun p => (d :: p.1, p.2)
    else (parseStrChars cs).map fun p => (c :: p.1, p.2)

/-- Match an expected literal character sequence, returning the remainder. -/
def afterLit : List Char → List Char → Option (List Char)
  | [], cs => some cs
  | _ :: _, [] => none
  | e :: es, c :: cs => if c = e then afterLit es cs else none

mutual
/-- Fuel-recursive parser for one JSON value (the no-whitespace fragment that
JSON.stringify emits). -/
def parseVal : Nat → List Char → Option (Json × List Char)
  | 0, _ => none
  | fuel + 1, cs =>
    match cs with
    | [] => none
    | c :: cs1 =>
      if c = 'n' then (afterLit ['u', 'l', 'l'] cs1).map fun r => (Json.null, r)
      else if c = 't' then (afterLit ['r', 'u', 'e'] cs1).map fun r => (Json.bool true, r)
      else if c = 'f' then (afterLit ['a', 'l', 's', 'e'] cs1).map fun r => (Json.bool false, r)
      else if c = qMark then (parseStrChars cs1).map fun p => (Json.str (String.mk p.1), p.2)
      else if c = '[' then
        if cs1.head? = some ']' then some (Json.arr [], cs1.tail)
        else parseElems fuel cs1 []
      else if c = lBrace then
        if cs1.head? = some rBrace then some (Json.obj [], cs1.tail)
        else parseMembs fuel cs1 []
      else if c = '-' then (parseNat cs1).map fun p => (Json.num (-(p.1 : Int)), p.2)
      else if c.isDigit then (parseNat (c :: cs1)).map fun p => (Json.num (p.1 : Int), p.2)
      else none
/-- Parse the elements of a nonempty array, accumulating in reverse. -/
def parseElems : Nat → List Char → List Json → Option (Json × List Char)
  | 0, _, _ => none
  | fuel + 1, cs, acc =>
    (parseVal fuel cs).bind fun p =>
      if p.2.head? = some ']' then some (Json.arr (p.1 :: acc).reverse, p.2.tail)
      else if p.2.head? = some ',' then parseElems fuel p.2.tail (p.1 :: acc)
      else none
/-- Parse the members of a nonempty object, accumulating in reverse. -/
def parseMembs : Nat → List Char → List (String × Json) → Option (Json × List Char)
  | 0, _, _ => none
  | fuel + 1, cs, acc =>
    match cs with
    | [] => none
    | c :: cs1 =>
      if c = qMark then
        (parseStrChars cs1).bind fun pk =>
          if pk.2.head? = some ':' then
            (parseVal fuel pk.2.tail).bind fun pv =>
              if pv.2.head? = some rBrace then
                some (Json.obj ((String.mk pk.1, pv.1) :: acc).reverse, pv.2.tail)
              else if pv.2.head? = some ',' then
                parseMembs fuel pv.2.tail ((String.mk pk.1, pv.1) :: acc)
              else none
          else none
      else none
end

/-- JSON.parse on the fragment: parse one value and require the input to be
fully consumed. -/
def jsonParse (s : String) : Option Json :=
  match parseVal (s.length + 1) s.data with
  | some (v, []) => some v
  | _ => none

end Shop
namespace Shop

/-- Is the head of the remaining input a decimal digit? Number parsing stops
exactly when this is false of the head. -/
def headNotDigit : List Char → Bool
  | [] => true
  | c :: _ => !c.isDigit

/-! The Cache Client (RedisService)

The backing key/value store maps keys to stored strings (with the ttl the
`set` call passed, recorded for reference; expiry itself is enforced by the
backing store, so the entries present are the live ones). -/

/-- One live cache entry: key, stored string, ttl in seconds if one was set. -/
structure CEntry where
  key : String
  value : String
  ttl : Option Nat
deriving Repr, DecidableEq

/-- The live contents of the backing key/value store. -/
def Cache := List CEntry

/-- Looks up the stored string for a key. -/
def cacheLookup (c : Cache) (k : String) : Option String :=
  ((c : List CEntry).find? (fun e => e.key == k)).map (fun e => e.value)

/-- SET: stores a string under a key, replacing any previous entry. -/
def cacheInsert (c : Cache) (k s : String) (ttl : Option Nat) : Cache :=
  ⟨k, s, ttl⟩ :: (c : List CEntry).filter (fun e => e.key != k)

/-- DEL of one literal key: removes exactly the entries whose key is equal,
character for character, to the argument (the backing store does not
interpret a key as a pattern). -/
def cacheErase (c : Cache) (k : String) : Cache :=
  (c : List CEntry).filter (fun e => e.key != k)

/-- The health of the cache connection and breaker, as the service sees it:
the connected flag the event handlers maintain, whether the backing server
currently answers, and whether the circuit breaker is open. -/
structure RedisEnv where
  connFlag : Bool
  serverUp : Bool
  circuitOpen : Bool
deriving Repr, DecidableEq

/-- Failures the Cache Client surfaces (all rethrown by its catch blocks). -/
inductive CacheError where
  | connectionFailed
  | backendUnavailable
  | timeout
  | parseFailed
deriving Repr, DecidableEq

/-- The failure, if any, that a cache command issued under `env` hits before
reaching the data: a failed reconnection ping in ensureConnection, the open
circuit failing fast, or the command itself timing out against a dead server. -/
def redisFail (env : RedisEnv) : Option CacheError :=
  if !env.connFlag && !env.serverUp then some .connectionFailed
  else if env.circuitOpen then some .backendUnavailable
  else if !env.serverUp then some .timeout
  else none

/-- An environment with the connection healthy and the circuit closed. -/
def healthyEnv : RedisEnv := ⟨true, true, false⟩

/-- RedisService.get: ensureConnection, then GET through the breaker; a found
string that is falsy (empty) yields null, otherwise it is JSON.parsed; any
layer failure is rethrown to the caller. Absence yields null, not an error. -/
def redisGet (env : RedisEnv) (c : Cache) (k : String) : Except CacheError Json :=
  match redisFail env with
  | some e => .error e
  | none =>
    match cacheLookup c k with
    | none => .ok .null
    | some s =>
      if s = "" then .ok .null
      else
        match jsonParse s with
        | some j => .ok j
        | none => .error .parseFailed

/-- RedisService.set: JSON.stringify the value and SET it (with the optional
expiry) through the breaker; failures are rethrown. -/
def redisSet (env : RedisEnv) (c : Cache) (k : String) (v : Json) (ttl : Option Nat) :
    Except CacheError Cache :=
  match redisFail env with
  | some e => .error e
  | none => .ok (cacheInsert c k (jsonStringify v) ttl)

/-- RedisService.del: DEL the given literal keys through the breaker;
failures are rethrown. Deleting an absent key is a no-op. -/
def redisDel (env : RedisEnv) (c : Cache) (ks : List String) : Except CacheError Cache :=
  match redisFail env with
  | some e => .error e
  | none => .ok (ks.foldl cacheErase c)

/-! JS-value helpers the resolver code relies on -/

/-- JS truthiness of a value delivered by the cache layer (null, false, 0 and
the empty string are falsy; every array and object is truthy). -/
def isTruthy : Json → Bool
  | .null => false
  | .bool b => b
  | .num n => n != 0
  | .str s => s != ""
  | .arr _ => true
  | .obj _ => true

/-- Property access on a row object (undefined, i.e. none, otherwise). -/
def jGet (row : Json) (field : String) : Option Json :=
  match row with
  | .obj fs => (fs.find? (fun f => f.1 == field)).map (fun f => f.2)
  | _ => none

/-- JS string coercion as a template literal performs it, for the values that
reach key construction (undefined prints as undefined; object/array cases are
conventional placeholders, never exercised by row data). -/
def jsCoerceString : Option Json → String
  | none => "undefined"
  | some .null => "null"
  | some (.bool true) => "true"
  | some (.bool false) => "false"
  | some (.num n) => String.mk (intChars n)
  | some (.str s) => s
  | some (.arr _) => ""
  | some (.obj _) => "[object Object]"

/-! The record store -/

/-- The query shapes the read paths issue, with their parameters. -/
inductive StoreQuery where
  | productsList (limit offset : Int)
  | productById (id : String)
  | categoryById (id : String)
  | reviewsByProduct (id : String)
  | variantsByProduct (id : String)
deriving Repr, DecidableEq

/-- Read access to the record store: each query yields its rows, or fails
(StoreQueryFailed). Rows are the joined row objects the pool returns. -/
structure StoreEnv where
  run : StoreQuery → Except Unit (List Json)

/-- The errors a resolver operation can surface to its caller. -/
inductive OpError where
  | cacheErr (e : CacheError)
  | storeErr
  | validationErr
  | appErr (msg : String)
  | typeErr
deriving Repr, DecidableEq

/-- One observable action of an operation, in execution order. -/
inductive Ev where
  | cacheGet (k : String)
  | cacheSet (k : String) (stored : String) (ttl : Option Nat)
  | cacheDel (k : String)
  | storeQuery (q : StoreQuery)
  | txBegin
  | txStmt (tag : String)
  | txCommit
  | txRollback
deriving Repr, DecidableEq

/-- The mutable state one ProductResolver instance owns: the cache contents
plus the raw-row side tables the field resolvers consult. -/
structure St where
  cache : Cache
  pd : List (String × Json)
  rd : List (String × List Json)
  vd : List (String × List Json)

/-- Result, post-state and trace of one resolver operation. -/
structure OpOut where
  res : Except OpError Json
  st : St
  tr : List Ev

/-! Cache keys (the declared templates, as the source builds them) -/

/-- Key of the paginated products list. -/
def productsKey (limit offset : Int) : String :=
  "products:" ++ toString limit ++ ":" ++ toString offset

/-- Key of a single product. -/
def productKey (id : String) : String := "product:" ++ id

/-- Key of a single category. -/
def categoryKey (id : String) : String := "category:" ++ id

/-- Key of a product's review collection. -/
def reviewsKey (id : String) : String := "reviews:" ++ id

/-- Key of a product's variant collection. -/
def variantsKey (id : String) : String := "variants:" ++ id

/-! Row-to-domain mappers (mapProductDBToProduct and friends): each builds
a fresh object holding exactly the listed properties, copied from the row
(a property absent from the row is undefined and therefore absent). -/

/-- Copies the given properties, in order, from a row into a fresh object. -/
def pickFields (row : Json) (fields : List String) : Json :=
  .obj (fields.filterMap (fun f => (jGet row f).map (fun v => (f, v))))

/-- mapProductDBToProduct: id, name, description, price, sku, brand, stock. -/
def mapProductDBToProduct (row : Json) : Json :=
  pickFields row ["id", "name", "description", "price", "sku", "brand", "stock"]

/-- mapCategoryDBToCategory: id, name, description. -/
def mapCategoryDBToCategory (row : Json) : Json :=
  pickFields row ["id", "name", "description"]

/-- mapReviewDBToReview: id, userId, rating, comment, createdAt (with the
renames from the snake_case row; created_at arrives as its ISO string). -/
def mapReviewDBToReview (row : Json) : Json :=
  .obj ([("id", jGet row "id"), ("userId", jGet row "user_id"),
    ("rating", jGet row "rating"), ("comment", jGet row "comment"),
    ("createdAt", jGet row "created_at")].filterMap
      (fun p => p.2.map (fun v => (p.1, v))))

/-- mapVariantDBToVariant: id, color, size, price, stock. -/
def mapVariantDBToVariant (row : Json) : Json :=
  pickFields row ["id", "color", "size", "price", "stock"]

/-- productData.set(row.id, row): the side table keyed by the row's id (ids
are uuid strings in every row the store holds). -/
def pdInsert (m : List (String × Json)) (row : Json) : List (String × Json) :=
  match jGet row "id" with
  | some (.str s) => (s, row) :: m.filter (fun e => e.1 != s)
  | _ => m

/-- productData.get(product.id). -/
def pdLookup (m : List (String × Json)) (product : Json) : Option Json :=
  match jGet product "id" with
  | some (.str s) => (m.find? (fun e => e.1 == s)).map (fun e => e.2)
  | _ => none

/-! The read operations -/

/-- Query products(limit, offset): cache lookup under products:{limit}:{offset},
hit returns the cached value; miss queries the store, caches the raw rows for
300 s, records each raw row in the productData side table, and returns the
mapped rows. Cache-layer and store-layer errors are rethrown. -/
def productsOp (renv : RedisEnv) (store : StoreEnv) (st : St) (limit offset : Int) : OpOut :=
  let key := productsKey limit offset
  match redisGet renv st.cache key with
  | .error e => ⟨.error (.cacheErr e), st, [.cacheGet key]⟩
  | .ok cached =>
    if isTruthy cached then ⟨.ok cached, st, [.cacheGet key]⟩
    else
      match store.run (.productsList limit offset) with
      | .error _ => ⟨.error .storeErr, st, [.cacheGet key, .storeQuery (.productsList limit offset)]⟩
      | .ok rows =>
        match redisSet renv st.cache key (.arr rows) (some 300) with
        | .error e => ⟨.error (.cacheErr e), st,
            [.cacheGet key, .storeQuery (.productsList limit offset)]⟩
        | .ok c2 =>
          ⟨.ok (.arr (rows.map mapProductDBToProduct)),
            { st with cache := c2, pd := rows.foldl pdInsert st.pd },
            [.cacheGet key, .storeQuery (.productsList limit offset),
              .cacheSet key (jsonStringify (.arr rows)) (some 300)]⟩

/-- Query product(id): cache lookup under product:{id}; miss queries the
store; no row (or a falsy row) returns null without caching; a found row is
cached raw for 3600 s and returned raw. -/
def productOp (renv : RedisEnv) (store : StoreEnv) (st : St) (id : String) : OpOut :=
  let key := productKey id
  match redisGet renv st.cache key with
  | .error e => ⟨.error (.cacheErr e), st, [.cacheGet key]⟩
  | .ok cached =>
    if isTruthy cached then ⟨.ok cached, st, [.cacheGet key]⟩
    else
      match store.run (.productById id) with
      | .error _ => ⟨.error .storeErr, st, [.cacheGet key, .storeQuery (.productById id)]⟩
      | .ok rows =>
        match rows.head? with
        | none => ⟨.ok .null, st, [.cacheGet key, .storeQuery (.productById id)]⟩
        | some row =>
          if isTruthy row then
            match redisSet renv st.cache key row (some 3600) with
            | .error e => ⟨.error (.cacheErr e), st,
                [.cacheGet key, .storeQuery (.productById id)]⟩
            | .ok c2 =>
              ⟨.ok row, { st with cache := c2 },
                [.cacheGet key, .storeQuery (.productById id),
                  .cacheSet key (jsonStringify row) (some 3600)]⟩
          else ⟨.ok .null, st, [.cacheGet key, .storeQuery (.productById id)]⟩

/-- Field resolver category(product): requires the raw row this resolver
instance stored in productData; throws otherwise. The key is built from the
raw row's category_id; a miss queries the store and maps the first row
(mapping an absent row throws a TypeError). -/
def categoryOp (renv : RedisEnv) (store : StoreEnv) (st : St) (product : Json) : OpOut :=
  match pdLookup st.pd product with
  | none => ⟨.error (.appErr "Product data not found"), st, []⟩
  | some raw =>
    let cid := jsCoerceString (jGet raw "category_id")
    let key := categoryKey cid
    match redisGet renv st.cache key with
    | .error e => ⟨.error (.cacheErr e), st, [.cacheGet key]⟩
    | .ok cached =>
      if isTruthy cached then ⟨.ok cached, st, [.cacheGet key]⟩
      else
        match store.run (.categoryById cid) with
        | .error _ => ⟨.error .storeErr, st, [.cacheGet key, .storeQuery (.categoryById cid)]⟩
        | .ok rows =>
          match rows.head? with
          | none => ⟨.error .typeErr, st, [.cacheGet key, .storeQuery (.categoryById cid)]⟩
          | some row =>
            let category := mapCategoryDBToCategory row
            match redisSet renv st.cache key category (some 3600) with
            | .error e => ⟨.error (.cacheErr e), st,
                [.cacheGet key, .storeQuery (.categoryById cid)]⟩
            | .ok c2 =>
              ⟨.ok category, { st with cache := c2 },
                [.cacheGet key, .storeQuery (.categoryById cid),
                  .cacheSet key (jsonStringify category) (some 3600)]⟩

/-- Field resolver reviews(product): key reviews:{productId}; a miss queries
the store, records the raw rows in the reviewData side table, caches the
mapped reviews for 1800 s and returns them. -/
def reviewsOp (renv : RedisEnv) (store : StoreEnv) (st : St) (product : Json) : OpOut :=
  let pid := jsCoerceString (jGet product "id")
  let key := reviewsKey pid
  match redisGet renv st.cache key with
  | .error e => ⟨.error (.cacheErr e), st, [.cacheGet key]⟩
  | .ok cached =>
    if isTruthy cached then ⟨.ok cached, st, [.cacheGet key]⟩
    else
      match store.run (.reviewsByProduct pid) with
      | .error _ => ⟨.error .storeErr, st, [.cacheGet key, .storeQuery (.reviewsByProduct pid)]⟩
      | .ok rows =>
        let reviews := Json.arr (rows.map mapReviewDBToReview)
        match redisSet renv st.cache key reviews (some 1800) with
        | .error e => ⟨.error (.cacheErr e), st,
            [.cacheGet key, .storeQuery (.reviewsByProduct pid)]⟩
        | .ok c2 =>
          ⟨.ok reviews,
            { st with cache := c2, rd := (pid, rows) :: st.rd.filter (fun e => e.1 != pid) },
            [.cacheGet key, .storeQuery (.reviewsByProduct pid),
              .cacheSet key (jsonStringify reviews) (some 1800)]⟩

/-- Field resolver variants(product): key variants:{productId}; a miss
queries the store, records the raw rows in the variantData side table, caches
the mapped variants for 1800 s and returns them. -/
def variantsOp (renv : RedisEnv) (store : StoreEnv) (st : St) (product : Json) : OpOut :=
  let pid := jsCoerceString (jGet product "id")
  let key := variantsKey pid
  match redisGet renv st.cache key with
  | .error e => ⟨.error (.cacheErr e), st, [.cacheGet key]⟩
  | .ok cached =>
    if isTruthy cached then ⟨.ok cached, st, [.cacheGet key]⟩
    else
      match store.run (.variantsByProduct pid) with
      | .error _ => ⟨.error .storeErr, st, [.cacheGet key, .storeQuery (.variantsByProduct pid)]⟩
      | .ok rows =>
        let variants := Json.arr (rows.map mapVariantDBToVariant)
        match redisSet renv st.cache key variants (some 1800) with
        | .error e => ⟨.error (.cacheErr e), st,
            [.cacheGet key, .storeQuery (.variantsByProduct pid)]⟩
        | .ok c2 =>
          ⟨.ok variants,
            { st with cache := c2, vd := (pid, rows) :: st.vd.filter (fun e => e.1 != pid) },
            [.cacheGet key, .storeQuery (.variantsByProduct pid),
              .cacheSet key (jsonStringify variants) (some 1800)]⟩

end Shop
namespace Shop

/-! Input validation (productSchema) -/

/-- A hexadecimal digit. -/
def isHexChar (c : Char) : Bool :=
  c.isDigit || ('a' ≤ c && c ≤ 'f') || ('A' ≤ c && c ≤ 'F')

/-- Splits a character list at the hyphens (the resulting groups never
contain a hyphen; n hyphens yield n+1 groups). -/
def splitHyphens : List Char → List (List Char)
  | [] => [[]]
  | c :: cs =>
    match splitHyphens cs with
    | [] => [[c]]
    | g :: gs => if c = '-' then [] :: g :: gs else (c :: g) :: gs

/-- The uuid shape the validation schema accepts: 8-4-4-4-12 hexadecimal with
a version digit 1-5 and a variant digit in 89ab, case-insensitive, or the nil
uuid. -/
def isUuid (s : String) : Bool :=
  s = "00000000-0000-0000-0000-000000000000" ||
  (match splitHyphens s.data with
  | [g1, g2, g3, g4, g5] =>
    g1.length = 8 && g2.length = 4 && g3.length = 4 && g4.length = 4 && g5.length = 12 &&
    (g1 ++ g2 ++ g3 ++ g4 ++ g5).all isHexChar &&
    (match g3 with
     | v1 :: _ => '1' ≤ v1 && v1 ≤ '5'
     | _ => false) &&
    (match g4 with
     | w1 :: _ => w1 = '8' || w1 = '9' || w1 = 'a' || w1 = 'b' || w1 = 'A' || w1 = 'B'
     | _ => false)
  | _ => false)

/-- One variant of the createProduct input. -/
structure VInput where
  color : String
  size : String
  price : Int
  stock : Int
deriving Repr, DecidableEq

/-- The createProduct input. -/
structure PInput where
  name : String
  description : String
  price : Int
  sku : Option String
  brand : Option String
  stock : Int
  categoryId : String
  variants : Option (List VInput)
deriving Repr, DecidableEq

/-- The variant part of productSchema: color and size required (nonempty),
positive price, non-negative stock. -/
def validVariant (v : VInput) : Bool :=
  v.color != "" && v.size != "" && decide (0 < v.price) && decide (0 ≤ v.stock)

/-- productSchema.validate: name 3-100 characters, description at least 10,
positive price, non-negative stock, uuid category id, and every variant valid
(sku and brand are nullable and unconstrained). -/
def validInput (input : PInput) : Bool :=
  decide (3 ≤ input.name.length) && decide (input.name.length ≤ 100) &&
  decide (10 ≤ input.description.length) &&
  decide (0 < input.price) && decide (0 ≤ input.stock) &&
  isUuid input.categoryId &&
  (match input.variants with
   | none => true
   | some vs => vs.all validVariant)

/-! The createProduct mutation -/

/-- Record-store table state the mutation writes: the products rows and the
product_variants rows. -/
structure DBState where
  products : List Json
  productVariants : List Json
deriving Repr

/-- Failure injection for the transaction, plus the id the store assigns the
inserted row: whether BEGIN, the product INSERT, the i-th variant INSERT or
COMMIT throws. -/
structure TxEnv where
  newId : String
  beginFail : Bool
  insertFail : Bool
  variantFailAt : Option Nat
  commitFail : Bool
deriving Repr, DecidableEq

/-- A nullable input column as the stored row holds it. -/
def optJson : Option String → Json
  | none => .null
  | some s => .str s

/-- The row the product INSERT ... RETURNING * yields: the store-assigned id,
the input columns, and the is_active default. -/
def newProductRow (tenv : TxEnv) (input : PInput) : Json :=
  .obj [("id", .str tenv.newId), ("name", .str input.name),
    ("description", .str input.description), ("price", .num input.price),
    ("sku", optJson input.sku), ("brand", optJson input.brand),
    ("stock", .num input.stock), ("category_id", .str input.categoryId),
    ("is_active", .bool true)]

/-- A product_variants row written for one input variant. -/
def variantRow (pid : String) (v : VInput) : Json :=
  .obj [("product_id", .str pid), ("color", .str v.color), ("size", .str v.size),
    ("price", .num v.price), ("stock", .num v.stock)]

/-- The in-transaction loop inserting one row per variant, in order; aborts
at the injected failing statement. Yields the staged rows (or none on the
failure) and the statement events attempted. -/
def insertVariantsFrom (tenv : TxEnv) (pid : String) :
    List VInput → Nat → Option (List Json) × List Ev
  | [], _ => (some [], [])
  | v :: vs, i =>
    if tenv.variantFailAt = some i then (none, [.txStmt "insertVariant"])
    else
      match insertVariantsFrom tenv pid vs (i + 1) with
      | (none, evs) => (none, .txStmt "insertVariant" :: evs)
      | (some rows, evs) => (some (variantRow pid v :: rows), .txStmt "insertVariant" :: evs)

/-- Result, table state, resolver state and trace of a createProduct call. -/
structure MutOut where
  res : Except OpError Json
  db : DBState
  st : St
  tr : List Ev

/-- Mutation createProduct(input): validate; BEGIN; INSERT the product row
RETURNING it; INSERT one row per variant (when input.variants is a nonempty
list); COMMIT; then DEL the single literal cache key products:* ; any failure
inside the transaction issues ROLLBACK, discards the staged rows and
rethrows. A DEL failure after COMMIT leaves the committed rows in place,
issues the (post-commit, ineffective) ROLLBACK of the catch block and
rethrows. -/
def createProductOp (renv : RedisEnv) (tenv : TxEnv) (db : DBState) (st : St)
    (input : PInput) : MutOut :=
  if !validInput input then ⟨.error .validationErr, db, st, []⟩
  else if tenv.beginFail then ⟨.error .storeErr, db, st, [.txRollback]⟩
  else if tenv.insertFail then
    ⟨.error .storeErr, db, st, [.txBegin, .txStmt "insertProduct", .txRollback]⟩
  else
    let prow := newProductRow tenv input
    let vlist := match input.variants with
      | none => []
      | some vs => vs
    match insertVariantsFrom tenv tenv.newId vlist 0 with
    | (none, evs) =>
      ⟨.error .storeErr, db, st,
        [.txBegin, .txStmt "insertProduct"] ++ evs ++ [.txRollback]⟩
    | (some vrows, evs) =>
      if tenv.commitFail then
        ⟨.error .storeErr, db, st,
          [.txBegin, .txStmt "insertProduct"] ++ evs ++ [.txRollback]⟩
      else
        let db2 : DBState := ⟨db.products ++ [prow], db.productVariants ++ vrows⟩
        match redisDel renv st.cache ["products:*"] with
        | .error e =>
          ⟨.error (.cacheErr e), db2, st,
            [.txBegin, .txStmt "insertProduct"] ++ evs
              ++ [.txCommit, .cacheDel "products:*", .txRollback]⟩
        | .ok c2 =>
          ⟨.ok prow, db2, { st with cache := c2 },
            [.txBegin, .txStmt "insertProduct"] ++ evs
              ++ [.txCommit, .cacheDel "products:*"]⟩

/-- The cache keys an event trace touched (read, wrote or deleted). -/
def evKeys : List Ev → List String
  | [] => []
  | .cacheGet k :: t => k :: evKeys t
  | .cacheSet k _ _ :: t => k :: evKeys t
  | .cacheDel k :: t => k :: evKeys t
  | _ :: t => evKeys t

/-- Did the trace issue any record-store query? -/
def hasStoreQuery (tr : List Ev) : Bool :=
  tr.any (fun e => match e with | .storeQuery _ => true | _ => false)

end Shop
namespace Shop

/-! Concrete fixtures used by the closed theorems below -/

/-- A joined products-list row as the store returns it: the product columns
plus the category_name and average_rating join columns. -/
def sampleRow : Json :=
  .obj [("id", .str "1"), ("name", .str "Produkt 1"),
    ("description", .str "Beschreibung 1"), ("price", .num 100),
    ("sku", .str "SKU1"), ("brand", .str "Marke1"), ("stock", .num 10),
    ("category_id", .str "cat1"), ("is_active", .bool true),
    ("category_name", .str "Kategorie 1"), ("average_rating", .num 4)]

/-- A resolver instance with an empty cache and empty side tables. -/
def emptySt : St := ⟨[], [], [], []⟩

/-- Empty record-store tables. -/
def emptyDB : DBState := ⟨[], []⟩

/-- A store whose every read yields no rows. -/
def voidStore : StoreEnv := ⟨fun _ => .ok []⟩

/-- A store whose products list yields the one sample row. -/
def listStore : StoreEnv :=
  ⟨fun q => match q with
    | .productsList _ _ => .ok [sampleRow]
    | _ => .ok []⟩

/-- A cache environment whose circuit breaker is open. -/
def openCircuitEnv : RedisEnv := ⟨true, true, true⟩

/-- A resolver state whose cache holds the 10:0 list key with payload []. -/
def warmListSt : St := ⟨[⟨"products:10:0", "[]", some 300⟩], [], [], []⟩

/-- A resolver state whose cache holds the 10:0 list key with stored JSON
null (present and unexpired, but parsing to a falsy value). -/
def nullValSt : St := ⟨[⟨"products:10:0", "null", none⟩], [], [], []⟩

/-- A valid createProduct input with one variant (the test suite's input,
with a variant added; prices as integers). -/
def sampleInput : PInput :=
  ⟨"Neues Produkt", "Detaillierte Beschreibung", 99, none, none, 50,
    "fd5f0dfe-a9ed-4234-b0a0-afc3c187c10b", some [⟨"rot", "M", 40, 5⟩]⟩

/-- A transaction environment in which every statement succeeds. -/
def okTx : TxEnv := ⟨"abc123", false, false, none, false⟩

/-- Does the transaction environment inject a failure that the createProduct
transaction will actually hit for this input (a BEGIN, product INSERT,
reached variant INSERT, or COMMIT that throws)? -/
def txFailureInjected (tenv : TxEnv) (input : PInput) : Bool :=
  tenv.beginFail || tenv.insertFail ||
  (match tenv.variantFailAt with
   | some i => decide (i < (match input.variants with | none => 0 | some vs => vs.length))
   | none => false) ||
  tenv.commitFail

end Shop
namespace Shop

theorem afterLit_append (lit rest : List Char) : afterLit lit (lit ++ rest) = some rest := by
  induction lit with
  | nil => rfl
  | cons c cs ih => simp [afterLit, ih]

theorem parseStrChars_escList (cs rest : List Char) :
    parseStrChars (escList cs ++ (qMark :: rest)) = some (cs, rest) := by
  induction cs with
  | nil =>
    show parseStrChars (qMark :: rest) = some ([], rest)
    rw [parseStrChars.eq_def]
    simp
  | cons c cs ih =>
    by_cases h : c = qMark ∨ c = bSlash
    · have hbs : ¬(bSlash = qMark) := by decide
      have harg : escList (c :: cs) ++ (qMark :: rest)
          = bSlash :: (c :: (escList cs ++ (qMark :: rest))) := by
        simp [escList, escChar, h]
      rw [harg, parseStrChars.eq_def]
      simp [hbs, ih]
    · push_neg at h
      have harg : escList (c :: cs) ++ (qMark :: rest)
          = c :: (escList cs ++ (qMark :: rest)) := by
        simp [escList, escChar, h.1, h.2]
      rw [harg, parseStrChars.eq_def]
      simp [h.1, h.2, ih]

theorem string_mk_data (s : String) : String.mk s.data = s := by
  cases s
  rfl

theorem digitChar_isDigit {d : Nat} (h : d < 10) : (Nat.digitChar d).isDigit = true := by
  interval_cases d <;> decide

theorem digitVal_of_digitChar {d : Nat} (hd : d < 10) :
    digitVal (Nat.digitChar d) = d := by
  interval_cases d <;> decide

theorem natCharsAux_ne_nil {fuel n : Nat} (h : n < fuel) : natCharsAux fuel n ≠ [] := by
  cases fuel with
  | zero => omega
  | succ f =>
    by_cases h10 : n < 10 <;> simp [natCharsAux, h10]

theorem natCharsAux_digits {fuel : Nat} :
    ∀ {n : Nat}, n < fuel → ∀ c ∈ natCharsAux fuel n, c.isDigit = true := by
  induction fuel with
  | zero => omega
  | succ f ih =>
    intro n hn c hc
    by_cases h10 : n < 10
    · simp [natCharsAux, h10] at hc
      subst hc
      exact digitChar_isDigit h10
    · simp [natCharsAux, h10] at hc
      rcases hc with hc | hc
      · exact ih (by omega : n / 10 < f) c hc
      · subst hc
        exact digitChar_isDigit (Nat.mod_lt _ (by omega))

theorem natCharsAux_foldl {fuel : Nat} :
    ∀ {n : Nat}, n < fuel → ∀ acc,
      (natCharsAux fuel n).foldl (fun a c => a * 10 + digitVal c) acc
        = acc * 10 ^ (natCharsAux fuel n).length + n := by
  induction fuel with
  | zero => omega
  | succ f ih =>
    intro n hn acc
    by_cases h10 : n < 10
    · simp [natCharsAux, h10, digitVal_of_digitChar h10]
    · have hdiv : n / 10 < f := by
        have := Nat.div_lt_self (by omega : 0 < n) (by omega : 1 < 10)
        omega
      simp only [natCharsAux, h10, if_false, List.foldl_append, List.foldl_cons,
        List.foldl_nil, List.length_append, List.length_cons, List.length_nil]
      rw [ih hdiv acc, digitVal_of_digitChar (Nat.mod_lt _ (by omega))]
      have hmod := Nat.div_add_mod n 10
      ring_nf
      omega

theorem parseNatAux_digits_append {ds : List Char} (hds : ∀ c ∈ ds, c.isDigit = true)
    {rest : List Char} (hrest : headNotDigit rest = true) (acc : Nat) :
    parseNatAux (ds ++ rest) acc = (ds.foldl (fun a c => a * 10 + digitVal c) acc, rest) := by
  induction ds generalizing acc with
  | nil =>
    cases rest with
    | nil => rfl
    | cons c t =>
      simp [headNotDigit] at hrest
      simp [parseNatAux, hrest]
  | cons d ds ih =>
    have hd : d.isDigit = true := hds d (by simp)
    simp only [List.cons_append, parseNatAux, hd, if_true, List.foldl_cons]
    exact ih (fun c hc => hds c (by simp [hc])) _

theorem parseNat_natChars (n : Nat) {rest : List Char} (hrest : headNotDigit rest = true) :
    parseNat (natChars n ++ rest) = some (n, rest) := by
  have hne := natCharsAux_ne_nil (Nat.lt_succ_self n)
  have hdig := natCharsAux_digits (Nat.lt_succ_self n)
  have hfold := natCharsAux_foldl (Nat.lt_succ_self n) 0
  rw [natChars] at *
  obtain ⟨c, t, hct⟩ : ∃ c t, natCharsAux (n + 1) n = c :: t := by
    cases h : natCharsAux (n + 1) n with
    | nil => exact absurd h hne
    | cons c t => exact ⟨c, t, rfl⟩
  have hc : c.isDigit = true := hdig c (by rw [hct]; simp)
  have ht : ∀ x ∈ t, x.isDigit = true := fun x hx => hdig x (by rw [hct]; simp [hx])
  rw [hct] at hfold ⊢
  simp only [List.cons_append, parseNat, hc, if_true]
  rw [parseNatAux_digits_append ht hrest]
  simp only [List.foldl_cons] at hfold
  simp only [Nat.zero_mul, Nat.zero_add] at hfold
  rw [hfold]

theorem headNotDigit_cons {c : Char} (h : c.isDigit = false) (t : List Char) :
    headNotDigit (c :: t) = true := by
  simp [headNotDigit, h]

theorem digit_ne_starts {c : Char} (h : c.isDigit = true) :
    ¬(c = 'n') ∧ ¬(c = 't') ∧ ¬(c = 'f') ∧ ¬(c = qMark) ∧ ¬(c = '[') ∧ ¬(c = lBrace)
      ∧ ¬(c = '-') := by
  refine ⟨?_, ?_, ?_, ?_, ?_, ?_, ?_⟩ <;> (rintro rfl; revert h; decide)

theorem digit_ne_closers {c : Char} (h : c.isDigit = true) :
    ¬(c = ']') ∧ ¬(c = rBrace) := by
  refine ⟨?_, ?_⟩ <;> (rintro rfl; revert h; decide)

theorem natChars_cons (n : Nat) :
    ∃ c t, natChars n = c :: t ∧ c.isDigit = true := by
  have hne := natCharsAux_ne_nil (Nat.lt_succ_self n)
  have hdig := natCharsAux_digits (Nat.lt_succ_self n)
  rw [natChars]
  cases h : natCharsAux (n + 1) n with
  | nil => exact absurd h hne
  | cons c t => exact ⟨c, t, rfl, hdig c (by rw [h]; simp)⟩

theorem strVal_head (v : Json) :
    ∃ c t, strVal v = c :: t ∧ ¬(c = ']') ∧ ¬(c = rBrace) := by
  cases v with
  | null => exact ⟨'n', _, rfl, by decide, by decide⟩
  | bool b => cases b with
    | true => exact ⟨'t', _, rfl, by decide, by decide⟩
    | false => exact ⟨'f', _, rfl, by decide, by decide⟩
  | str s => exact ⟨qMark, _, rfl, by decide, by decide⟩
  | num i =>
    by_cases hneg : i < 0
    · refine ⟨'-', natChars i.natAbs, ?_, by decide, by decide⟩
      simp [strVal, intChars, hneg]
    · obtain ⟨c, t, hct, hc⟩ := natChars_cons i.toNat
      obtain ⟨h1, h2⟩ := digit_ne_closers hc
      refine ⟨c, t, ?_, h1, h2⟩
      simp [strVal, intChars, hneg, hct]
  | arr l => cases l with
    | nil => exact ⟨'[', _, rfl, by decide, by decide⟩
    | cons v vs => exact ⟨'[', _, rfl, by decide, by decide⟩
  | obj l => cases l with
    | nil => exact ⟨lBrace, _, rfl, by decide, by decide⟩
    | cons m ms => exact ⟨lBrace, _, rfl, by decide, by decide⟩

theorem strVal_length_pos (v : Json) : 1 ≤ (strVal v).length := by
  obtain ⟨c, t, hct, -, -⟩ := strVal_head v
  rw [hct]
  simp

theorem strElems_length_pos (vs : List Json) : 1 ≤ (strElems vs).length := by
  cases vs <;> simp [strElems]

theorem strMembers_length_pos (ms : List (String × Json)) : 1 ≤ (strMembers ms).length := by
  cases ms <;> simp [strMembers]

theorem strMember_length (k : String) (v : Json) :
    (strMember (k, v)).length = 3 + (escList k.data).length + (strVal v).length := by
  simp [strMember]
  omega

theorem headNotDigit_strMembers (ms : List (String × Json)) (rest : List Char) :
    headNotDigit (strMembers ms ++ rest) = true := by
  cases ms with
  | nil =>
    show headNotDigit (rBrace :: rest) = true
    exact headNotDigit_cons (by decide) rest
  | cons m ms =>
    show headNotDigit (',' :: _) = true
    exact headNotDigit_cons (by decide) _

theorem parseVal_cons (fuel : Nat) (c : Char) (cs1 : List Char) :
    parseVal (fuel + 1) (c :: cs1) =
      (if c = 'n' then (afterLit ['u', 'l', 'l'] cs1).map fun r => (Json.null, r)
      else if c = 't' then (afterLit ['r', 'u', 'e'] cs1).map fun r => (Json.bool true, r)
      else if c = 'f' then (afterLit ['a', 'l', 's', 'e'] cs1).map fun r => (Json.bool false, r)
      else if c = qMark then (parseStrChars cs1).map fun p => (Json.str (String.mk p.1), p.2)
      else if c = '[' then
        if cs1.head? = some ']' then some (Json.arr [], cs1.tail)
        else parseElems fuel cs1 []
      else if c = lBrace then
        if cs1.head? = some rBrace then some (Json.obj [], cs1.tail)
        else parseMembs fuel cs1 []
      else if c = '-' then (parseNat cs1).map fun p => (Json.num (-(p.1 : Int)), p.2)
      else if c.isDigit then (parseNat (c :: cs1)).map fun p => (Json.num (p.1 : Int), p.2)
      else none) := rfl

theorem parseElems_succ (fuel : Nat) (cs : List Char) (acc : List Json) :
    parseElems (fuel + 1) cs acc =
      (parseVal fuel cs).bind fun p =>
        if p.2.head? = some ']' then some (Json.arr (p.1 :: acc).reverse, p.2.tail)
        else if p.2.head? = some ',' then parseElems fuel p.2.tail (p.1 :: acc)
        else none := rfl

theorem parseMembs_cons (fuel : Nat) (c : Char) (cs1 : List Char) (acc : List (String × Json)) :
    parseMembs (fuel + 1) (c :: cs1) acc =
      (if c = qMark then
        (parseStrChars cs1).bind fun pk =>
          if pk.2.head? = some ':' then
            (parseVal fuel pk.2.tail).bind fun pv =>
              if pv.2.head? = some rBrace then
                some (Json.obj ((String.mk pk.1, pv.1) :: acc).reverse, pv.2.tail)
              else if pv.2.head? = some ',' then
                parseMembs fuel pv.2.tail ((String.mk pk.1, pv.1) :: acc)
              else none
          else none
      else none) := rfl

end Shop
namespace Shop

mutual
theorem rtVal : ∀ (v : Json) (fuel : Nat) (rest : List Char),
    (strVal v).length ≤ fuel → headNotDigit rest = true →
    parseVal fuel (strVal v ++ rest) = some (v, rest)
  | .null, fuel, rest, hf, _ => by
    cases fuel with
    | zero => simp [strVal] at hf
    | succ f =>
      show parseVal (f + 1) ('n' :: (['u', 'l', 'l'] ++ rest)) = some (.null, rest)
      rw [parseVal_cons, if_pos rfl, afterLit_append]
      rfl
  | .bool true, fuel, rest, hf, _ => by
    cases fuel with
    | zero => simp [strVal] at hf
    | succ f =>
      show parseVal (f + 1) ('t' :: (['r', 'u', 'e'] ++ rest)) = some (.bool true, rest)
      rw [parseVal_cons, if_neg (by decide : ¬(('t' : Char) = 'n')), if_pos rfl, afterLit_append]
      rfl
  | .bool false, fuel, rest, hf, _ => by
    cases fuel with
    | zero => simp [strVal] at hf
    | succ f =>
      show parseVal (f + 1) ('f' :: (['a', 'l', 's', 'e'] ++ rest)) = some (.bool false, rest)
      rw [parseVal_cons, if_neg (by decide : ¬(('f' : Char) = 'n')),
        if_neg (by decide : ¬(('f' : Char) = 't')), if_pos rfl, afterLit_append]
      rfl
  | .num i, fuel, rest, hf, hrest => by
    have hpos := strVal_length_pos (.num i)
    cases fuel with
    | zero => omega
    | succ f =>
      by_cases hneg : i < 0
      · have harg : strVal (.num i) ++ rest = '-' :: (natChars i.natAbs ++ rest) := by
          simp [strVal, intChars, hneg]
        rw [harg, parseVal_cons, if_neg (by decide : ¬(('-' : Char) = 'n')),
          if_neg (by decide : ¬(('-' : Char) = 't')), if_neg (by decide : ¬(('-' : Char) = 'f')),
          if_neg (by decide : ¬(('-' : Char) = qMark)), if_neg (by decide : ¬(('-' : Char) = '[')),
          if_neg (by decide : ¬(('-' : Char) = lBrace)), if_pos rfl,
          parseNat_natChars i.natAbs hrest]
        have hval : -((i.natAbs : Int)) = i := by omega
        simp only [Option.map_some', hval]
      · obtain ⟨c, t, hct, hdig⟩ := natChars_cons i.toNat
        obtain ⟨h1, h2, h3, h4, h5, h6, h7⟩ := digit_ne_starts hdig
        have harg : strVal (.num i) ++ rest = c :: (t ++ rest) := by
          simp [strVal, intChars, hneg, hct]
        rw [harg, parseVal_cons, if_neg h1, if_neg h2, if_neg h3, if_neg h4, if_neg h5,
          if_neg h6, if_neg h7, if_pos hdig,
          show c :: (t ++ rest) = natChars i.toNat ++ rest from by rw [hct]; simp,
          parseNat_natChars i.toNat hrest]
        have hval : ((i.toNat : Int)) = i := by omega
        simp only [Option.map_some', hval]
  | .str s, fuel, rest, hf, _ => by
    have hpos := strVal_length_pos (.str s)
    cases fuel with
    | zero => omega
    | succ f =>
      have harg : strVal (.str s) ++ rest = qMark :: (escList s.data ++ (qMark :: rest)) := by
        simp [strVal]
      rw [harg, parseVal_cons, if_neg (by decide : ¬(qMark = 'n')),
        if_neg (by decide : ¬(qMark = 't')), if_neg (by decide : ¬(qMark = 'f')), if_pos rfl,
        parseStrChars_escList]
      simp [string_mk_data]
  | .arr [], fuel, rest, hf, _ => by
    cases fuel with
    | zero => simp [strVal] at hf
    | succ f =>
      show parseVal (f + 1) ('[' :: (']' :: rest)) = some (.arr [], rest)
      rw [parseVal_cons, if_neg (by decide : ¬(('[' : Char) = 'n')),
        if_neg (by decide : ¬(('[' : Char) = 't')), if_neg (by decide : ¬(('[' : Char) = 'f')),
        if_neg (by decide : ¬(('[' : Char) = qMark)), if_pos rfl]
      simp
  | .arr (v :: vs), fuel, rest, hf, _ => by
    have hpos := strVal_length_pos (.arr (v :: vs))
    cases fuel with
    | zero => omega
    | succ f =>
      have harg : strVal (.arr (v :: vs)) ++ rest
          = '[' :: (strVal v ++ (strElems vs ++ rest)) := by
        simp [strVal]
      obtain ⟨c, t, hct, hc1, hc2⟩ := strVal_head v
      have hhead : ¬((strVal v ++ (strElems vs ++ rest)).head? = some ']') := by
        rw [hct]
        simp [hc1]
      have hbound : (strVal v).length + (strElems vs).length ≤ f := by
        have hl : (strVal (.arr (v :: vs))).length
            = 1 + ((strVal v).length + (strElems vs).length) := by
          simp [strVal]
          omega
        omega
      rw [harg, parseVal_cons, if_neg (by decide : ¬(('[' : Char) = 'n')),
        if_neg (by decide : ¬(('[' : Char) = 't')), if_neg (by decide : ¬(('[' : Char) = 'f')),
        if_neg (by decide : ¬(('[' : Char) = qMark)), if_pos rfl, if_neg hhead,
        rtElems v vs f [] rest hbound]
      simp
  | .obj [], fuel, rest, hf, _ => by
    cases fuel with
    | zero => simp [strVal] at hf
    | succ f =>
      show parseVal (f + 1) (lBrace :: (rBrace :: rest)) = some (.obj [], rest)
      rw [parseVal_cons, if_neg (by decide : ¬(lBrace = 'n')),
        if_neg (by decide : ¬(lBrace = 't')), if_neg (by decide : ¬(lBrace = 'f')),
        if_neg (by decide : ¬(lBrace = qMark)), if_neg (by decide : ¬(lBrace = '[')),
        if_pos rfl]
      simp
  | .obj ((k, v) :: ms), fuel, rest, hf, _ => by
    have hpos := strVal_length_pos (.obj ((k, v) :: ms))
    cases fuel with
    | zero => omega
    | succ f =>
      have harg : strVal (.obj ((k, v) :: ms)) ++ rest
          = lBrace :: (strMember (k, v) ++ (strMembers ms ++ rest)) := by
        simp [strVal]
      have hhead : ¬((strMember (k, v) ++ (strMembers ms ++ rest)).head? = some rBrace) := by
        show ¬(((qMark :: (escList k.data ++ (qMark :: ':' :: strVal v)))
            ++ (strMembers ms ++ rest)).head? = some rBrace)
        intro h
        simp at h
        exact absurd h (by decide)
      have hbound : (strMember (k, v)).length + (strMembers ms).length ≤ f := by
        have hl : (strVal (.obj ((k, v) :: ms))).length
            = 1 + ((strMember (k, v)).length + (strMembers ms).length) := by
          simp [strVal]
          omega
        omega
      rw [harg, parseVal_cons, if_neg (by decide : ¬(lBrace = 'n')),
        if_neg (by decide : ¬(lBrace = 't')), if_neg (by decide : ¬(lBrace = 'f')),
        if_neg (by decide : ¬(lBrace = qMark)), if_neg (by decide : ¬(lBrace = '[')),
        if_pos rfl, if_neg hhead, rtMembs k v ms f [] rest hbound]
      simp
termination_by v _ _ _ _ => sizeOf v

theorem rtElems : ∀ (v : Json) (vs : List Json) (fuel : Nat) (acc : List Json) (rest : List Char),
    (strVal v).length + (strElems vs).length ≤ fuel →
    parseElems fuel (strVal v ++ (strElems vs ++ rest)) acc
      = some (Json.arr (acc.reverse ++ v :: vs), rest)
  | v, [], fuel, acc, rest, hf => by
    have hpos := strVal_length_pos v
    have hpos2 := strElems_length_pos ([] : List Json)
    cases fuel with
    | zero => omega
    | succ f =>
      have hb : (strVal v).length ≤ f := by
        have : (strElems ([] : List Json)).length = 1 := by simp [strElems]
        omega
      rw [show strVal v ++ (strElems [] ++ rest) = strVal v ++ (']' :: rest) from by
          simp [strElems],
        parseElems_succ, rtVal v f (']' :: rest) hb (headNotDigit_cons (by decide) rest)]
      simp
  | v, v2 :: vs2, fuel, acc, rest, hf => by
    have hpos := strVal_length_pos v
    have hpos2 := strVal_length_pos v2
    cases fuel with
    | zero => omega
    | succ f =>
      have hlen : (strElems (v2 :: vs2)).length
          = 1 + ((strVal v2).length + (strElems vs2).length) := by
        simp [strElems]
        omega
      have hb : (strVal v).length ≤ f := by omega
      have hbound : (strVal v2).length + (strElems vs2).length ≤ f := by omega
      rw [show strVal v ++ (strElems (v2 :: vs2) ++ rest)
            = strVal v ++ (',' :: (strVal v2 ++ (strElems vs2 ++ rest))) from by
          simp [strElems],
        parseElems_succ,
        rtVal v f (',' :: (strVal v2 ++ (strElems vs2 ++ rest))) hb
          (headNotDigit_cons (by decide) _)]
      simp only [Option.some_bind]
      rw [if_neg (show ¬(((',' :: (strVal v2 ++ (strElems vs2 ++ rest))) : List Char).head?
            = some ']') from by simp),
        if_pos (show ((',' :: (strVal v2 ++ (strElems vs2 ++ rest))) : List Char).head?
            = some ',' from rfl)]
      show parseElems f (strVal v2 ++ (strElems vs2 ++ rest)) (v :: acc) = _
      rw [rtElems v2 vs2 f (v :: acc) rest hbound]
      simp
termination_by v vs _ _ _ _ => 1 + sizeOf v + sizeOf vs

theorem rtMembs : ∀ (k : String) (v : Json) (ms : List (String × Json)) (fuel : Nat)
    (acc : List (String × Json)) (rest : List Char),
    (strMember (k, v)).length + (strMembers ms).length ≤ fuel →
    parseMembs fuel (strMember (k, v) ++ (strMembers ms ++ rest)) acc
      = some (Json.obj (acc.reverse ++ (k, v) :: ms), rest)
  | k, v, [], fuel, acc, rest, hf => by
    have hpos := strVal_length_pos v
    have hmlen := strMember_length k v
    cases fuel with
    | zero => omega
    | succ f =>
      have hb : (strVal v).length ≤ f := by
        have : (strMembers ([] : List (String × Json))).length = 1 := by simp [strMembers]
        omega
      rw [show strMember (k, v) ++ (strMembers [] ++ rest)
            = qMark :: (escList k.data ++ (qMark :: (':' :: (strVal v
                ++ (rBrace :: rest))))) from by
          simp [strMember, strMembers],
        parseMembs_cons, if_pos rfl, parseStrChars_escList]
      simp only [Option.some_bind]
      rw [if_pos (show ((':' :: (strVal v ++ (rBrace :: rest))) : List Char).head?
            = some ':' from rfl)]
      show (parseVal f (strVal v ++ (rBrace :: rest))).bind _ = _
      rw [rtVal v f (rBrace :: rest) hb (headNotDigit_cons (by decide) rest)]
      simp [string_mk_data]
  | k, v, (k2, v2) :: ms2, fuel, acc, rest, hf => by
    have hpos := strVal_length_pos v
    have hmlen := strMember_length k v
    have hmlen2 := strMember_length k2 v2
    have hpos2 := strVal_length_pos v2
    cases fuel with
    | zero => omega
    | succ f =>
      have hslen : (strMembers ((k2, v2) :: ms2)).length
          = 1 + ((strMember (k2, v2)).length + (strMembers ms2).length) := by
        simp [strMembers]
        omega
      have hb : (strVal v).length ≤ f := by omega
      have hbound : (strMember (k2, v2)).length + (strMembers ms2).length ≤ f := by omega
      rw [show strMember (k, v) ++ (strMembers ((k2, v2) :: ms2) ++ rest)
            = qMark :: (escList k.data ++ (qMark :: (':' :: (strVal v
                ++ (',' :: (strMember (k2, v2) ++ (strMembers ms2 ++ rest))))))) from by
          simp [strMember, strMembers],
        parseMembs_cons, if_pos rfl, parseStrChars_escList]
      simp only [Option.some_bind]
      rw [if_pos (show ((':' :: (strVal v ++ (',' :: (strMember (k2, v2)
            ++ (strMembers ms2 ++ rest))))) : List Char).head? = some ':' from rfl)]
      show (parseVal f (strVal v ++ (',' :: (strMember (k2, v2)
          ++ (strMembers ms2 ++ rest))))).bind _ = _
      rw [rtVal v f _ hb (headNotDigit_cons (by decide) _)]
      simp only [Option.some_bind]
      rw [if_neg (show ¬(((',' :: (strMember (k2, v2) ++ (strMembers ms2 ++ rest)))
            : List Char).head? = some rBrace) from by simp; decide),
        if_pos (show ((',' :: (strMember (k2, v2) ++ (strMembers ms2 ++ rest)))
            : List Char).head? = some ',' from rfl)]
      show parseMembs f (strMember (k2, v2) ++ (strMembers ms2 ++ rest))
          ((String.mk k.data, v) :: acc) = _
      rw [rtMembs k2 v2 ms2 f ((String.mk k.data, v) :: acc) rest hbound]
      simp [string_mk_data]
termination_by k v ms _ _ _ _ => 1 + sizeOf k + sizeOf v + sizeOf ms
end

theorem jsonParse_stringify (v : Json) : jsonParse (jsonStringify v) = some v := by
  have hv := rtVal v ((strVal v).length + 1) [] (by omega) (by decide)
  simp only [List.append_nil] at hv
  show (match parseVal ((jsonStringify v).length + 1) (jsonStringify v).data with
    | some (w, []) => some w
    | _ => none) = some v
  rw [show (jsonStringify v).data = strVal v from rfl,
    show (jsonStringify v).length = (strVal v).length from rfl, hv]

theorem jsonStringify_ne_empty (v : Json) : jsonStringify v ≠ "" := by
  intro h
  obtain ⟨c, t, hct, -, -⟩ := strVal_head v
  have hd : (jsonStringify v).data = ("" : String).data := by rw [h]
  rw [show (jsonStringify v).data = strVal v from rfl, hct] at hd
  simp at hd

end Shop
namespace Shop

/-! Cache-layer lemmas -/

theorem cacheLookup_insert_self (c : Cache) (k s : String) (ttl : Option Nat) :
    cacheLookup (cacheInsert c k s ttl) k = some s := by
  simp [cacheLookup, cacheInsert]

theorem redisGet_fail {env : RedisEnv} {e : CacheError} (h : redisFail env = some e)
    (c : Cache) (k : String) : redisGet env c k = .error e := by
  simp [redisGet, h]

theorem redisGet_absent {env : RedisEnv} (h : redisFail env = none) {c : Cache} {k : String}
    (habs : cacheLookup c k = none) : redisGet env c k = .ok .null := by
  simp [redisGet, h, habs]

theorem redisGet_found {env : RedisEnv} (h : redisFail env = none) {c : Cache} {k : String}
    {s : String} (hs : cacheLookup c k = some s) {j : Json} (hj : jsonParse s = some j) :
    redisGet env c k = .ok j := by
  have hne : ¬(s = "") := by
    intro he
    subst he
    simp [show jsonParse "" = none from rfl] at hj
  simp only [redisGet, h, hs]
  rw [if_neg hne, hj]

theorem redisGet_empty_string {env : RedisEnv} (h : redisFail env = none) {c : Cache}
    {k : String} (hs : cacheLookup c k = some "") : redisGet env c k = .ok .null := by
  simp [redisGet, h, hs]

theorem redisGet_after_set {env : RedisEnv} (h : redisFail env = none) (c : Cache)
    (k : String) (v : Json) (ttl : Option Nat) :
    redisGet env (cacheInsert c k (jsonStringify v) ttl) k = .ok v :=
  redisGet_found h (cacheLookup_insert_self c k (jsonStringify v) ttl) (jsonParse_stringify v)

theorem redisSet_healthy {env : RedisEnv} (h : redisFail env = none) (c : Cache)
    (k : String) (v : Json) (ttl : Option Nat) :
    redisSet env c k v ttl = .ok (cacheInsert c k (jsonStringify v) ttl) := by
  unfold redisSet
  rw [h]

theorem redisDel_healthy {env : RedisEnv} (h : redisFail env = none) (c : Cache)
    (ks : List String) : redisDel env c ks = .ok (ks.foldl cacheErase c) := by
  unfold redisDel
  rw [h]

/-! Variant-loop lemmas -/

theorem insertVariantsFrom_events (tenv : TxEnv) (pid : String) :
    ∀ (vs : List VInput) (j : Nat), ∀ e ∈ (insertVariantsFrom tenv pid vs j).2,
      e = Ev.txStmt "insertVariant" := by
  intro vs
  induction vs with
  | nil => intro j e he; simp [insertVariantsFrom] at he
  | cons v vs ih =>
    intro j e he
    by_cases hfail : tenv.variantFailAt = some j
    · simp [insertVariantsFrom, hfail] at he
      exact he
    · simp only [insertVariantsFrom, hfail, if_false, reduceIte] at he
      rcases hres : insertVariantsFrom tenv pid vs (j + 1) with ⟨o, evs⟩
      rw [hres] at he
      cases o with
      | none =>
        simp at he
        rcases he with he | he
        · exact he
        · exact ih (j + 1) e (by rw [hres]; exact he)
      | some rows =>
        simp at he
        rcases he with he | he
        · exact he
        · exact ih (j + 1) e (by rw [hres]; exact he)

theorem insertVariantsFrom_some (tenv : TxEnv) (pid : String) :
    ∀ (vs : List VInput) (j : Nat) (rows : List Json),
      (insertVariantsFrom tenv pid vs j).1 = some rows →
      rows = vs.map (variantRow pid) := by
  intro vs
  induction vs with
  | nil => intro j rows h; simp [insertVariantsFrom] at h; simp [h.symm]
  | cons v vs ih =>
    intro j rows h
    by_cases hfail : tenv.variantFailAt = some j
    · simp [insertVariantsFrom, hfail] at h
    · simp only [insertVariantsFrom, hfail, if_false, reduceIte] at h
      rcases hres : insertVariantsFrom tenv pid vs (j + 1) with ⟨o, evs⟩
      rw [hres] at h
      cases o with
      | none => simp at h
      | some rows2 =>
        simp at h
        rw [List.map_cons, ← ih (j + 1) rows2 (by rw [hres]), h.symm]

end Shop
namespace Shop

/-- C10: the Cache Client round-trips values through JSON: with the
connection healthy and the circuit closed, a get after a set of value v
under the same key returns exactly the re-parsed serialization of v (which
the proven parse/stringify round trip identifies with v itself); get yields
null both for an absent key and for a stored JSON null or an empty stored
string, which parse falsy at the string level. -/
theorem c10_cache_client_roundtrip :
    ∀ (env : RedisEnv), redisFail env = none →
      (∀ (c : Cache) (k : String) (v : Json) (ttl : Option Nat),
        redisSet env c k v ttl = .ok (cacheInsert c k (jsonStringify v) ttl) ∧
        redisGet env (cacheInsert c k (jsonStringify v) ttl) k = .ok v ∧
        jsonParse (jsonStringify v) = some v) ∧
      (∀ (c : Cache) (k : String), cacheLookup c k = none → redisGet env c k = .ok .null) ∧
      (∀ (c : Cache) (k : String), cacheLookup c k = some "null" →
        redisGet env c k = .ok .null) ∧
      (∀ (c : Cache) (k : String), cacheLookup c k = some "" →
        redisGet env c k = .ok .null) := by
  intro env h
  refine ⟨fun c k v ttl => ⟨redisSet_healthy h c k v ttl, redisGet_after_set h c k v ttl,
      jsonParse_stringify v⟩,
    fun c k habs => redisGet_absent h habs,
    fun c k hs => redisGet_found h hs rfl,
    fun c k hs => redisGet_empty_string h hs⟩

/-- Closed instance of C10 at a healthy environment and concrete values. -/
theorem c10_cache_client_roundtrip_witness :
    redisFail healthyEnv = none ∧
    redisGet healthyEnv (cacheInsert [] "k" (jsonStringify (.num 7)) (some 60)) "k"
      = .ok (.num 7) ∧
    redisGet healthyEnv [⟨"k", "null", none⟩] "k" = .ok .null := by
  refine ⟨rfl, ?_, ?_⟩
  · exact ((c10_cache_client_roundtrip healthyEnv rfl).1 [] "k" (.num 7) (some 60)).2.1
  · exact (c10_cache_client_roundtrip healthyEnv rfl).2.2.1 [⟨"k", "null", none⟩] "k" rfl

/-- C1 (the code violates the stated invariant at this input): a successful
createProduct commits and issues its single cache delete, but that delete
names the literal key products:* , so the live paginated-list key
products:10:0 (an instance of the products:{limit}:{offset} template the
mutation affects) is still in the cache afterwards. -/
theorem c1_committed_create_leaves_list_key :
    (createProductOp healthyEnv okTx emptyDB warmListSt sampleInput).res
        = .ok (newProductRow okTx sampleInput) ∧
    Ev.txCommit ∈ (createProductOp healthyEnv okTx emptyDB warmListSt sampleInput).tr ∧
    Ev.cacheDel "products:*" ∈ (createProductOp healthyEnv okTx emptyDB warmListSt sampleInput).tr ∧
    cacheLookup (createProductOp healthyEnv okTx emptyDB warmListSt sampleInput).st.cache
        (productsKey 10 0) = some "[]" := by
  refine ⟨rfl, by decide, by decide, rfl⟩

/-- C3 is false as stated: with the circuit open, the paginated read does not
fall through to the record store; it surfaces the cache error and issues no
store query, so its outcome differs from a store-only read (which returns
the store rows). -/
theorem c3_counterexample :
    (productsOp openCircuitEnv voidStore emptySt 10 0).res
        = .error (.cacheErr .backendUnavailable) ∧
    hasStoreQuery (productsOp openCircuitEnv voidStore emptySt 10 0).tr = false ∧
    (productsOp openCircuitEnv listStore emptySt 10 0).res
        ≠ .ok (.arr ([sampleRow].map mapProductDBToProduct)) := by
  refine ⟨rfl, rfl, ?_⟩
  intro h
  exact Except.noConfusion h

/-- C3 amended: a cache-layer failure during get is rethrown by every read
operation: the read fails with that cache error, leaves the state unchanged
and issues no record-store query (it does not degrade to a store-only read). -/
theorem c3_amended_cache_failure_propagates :
    ∀ (renv : RedisEnv) (store : StoreEnv) (st : St) (e : CacheError),
      redisFail renv = some e →
      (∀ limit offset, productsOp renv store st limit offset
          = ⟨.error (.cacheErr e), st, [.cacheGet (productsKey limit offset)]⟩) ∧
      (∀ id, productOp renv store st id
          = ⟨.error (.cacheErr e), st, [.cacheGet (productKey id)]⟩) ∧
      (∀ product raw, pdLookup st.pd product = some raw →
        categoryOp renv store st product = ⟨.error (.cacheErr e), st,
          [.cacheGet (categoryKey (jsCoerceString (jGet raw "category_id")))]⟩) ∧
      (∀ product, reviewsOp renv store st product = ⟨.error (.cacheErr e), st,
          [.cacheGet (reviewsKey (jsCoerceString (jGet product "id")))]⟩) ∧
      (∀ product, variantsOp renv store st product = ⟨.error (.cacheErr e), st,
          [.cacheGet (variantsKey (jsCoerceString (jGet product "id")))]⟩) := by
  intro renv store st e h
  refine ⟨fun limit offset => ?_, fun id => ?_, fun product raw hraw => ?_,
    fun product => ?_, fun product => ?_⟩
  · simp only [productsOp]
    rw [redisGet_fail h]
  · simp only [productOp]
    rw [redisGet_fail h]
  · simp only [categoryOp, hraw]
    rw [redisGet_fail h]
  · simp only [reviewsOp]
    rw [redisGet_fail h]
  · simp only [variantsOp]
    rw [redisGet_fail h]

/-- Closed instance of C3 amended at concrete inputs. -/
theorem c3_amended_witness :
    productsOp openCircuitEnv voidStore emptySt 10 0
      = ⟨.error (.cacheErr .backendUnavailable), emptySt, [.cacheGet (productsKey 10 0)]⟩ :=
  ((c3_amended_cache_failure_propagates openCircuitEnv voidStore emptySt
    .backendUnavailable rfl).1 10 0)

/-- C5 is false as stated: the key products:10:0 is present and unexpired in
the cache (it stores JSON null), yet the paginated read issues a record-store
query, because the resolver treats the falsy parsed value as a miss. -/
theorem c5_counterexample :
    cacheLookup nullValSt.cache (productsKey 10 0) = some "null" ∧
    hasStoreQuery (productsOp healthyEnv voidStore nullValSt 10 0).tr = true := ⟨rfl, rfl⟩

/-- C5 amended: if the computed key is present, unexpired and its stored
string parses to a JS-truthy value (which every payload these read paths
themselves write is), the read returns that value directly, changes nothing
and issues no record-store query. -/
theorem c5_amended_truthy_hit_short_circuits :
    ∀ (renv : RedisEnv) (store : StoreEnv) (st : St) (s : String) (j : Json),
      redisFail renv = none → jsonParse s = some j → isTruthy j = true →
      (∀ limit offset, cacheLookup st.cache (productsKey limit offset) = some s →
        productsOp renv store st limit offset
          = ⟨.ok j, st, [.cacheGet (productsKey limit offset)]⟩) ∧
      (∀ id, cacheLookup st.cache (productKey id) = some s →
        productOp renv store st id = ⟨.ok j, st, [.cacheGet (productKey id)]⟩) ∧
      (∀ product raw, pdLookup st.pd product = some raw →
        cacheLookup st.cache (categoryKey (jsCoerceString (jGet raw "category_id"))) = some s →
        categoryOp renv store st product = ⟨.ok j, st,
          [.cacheGet (categoryKey (jsCoerceString (jGet raw "category_id")))]⟩) ∧
      (∀ product, cacheLookup st.cache (reviewsKey (jsCoerceString (jGet product "id"))) = some s →
        reviewsOp renv store st product = ⟨.ok j, st,
          [.cacheGet (reviewsKey (jsCoerceString (jGet product "id")))]⟩) ∧
      (∀ product, cacheLookup st.cache (variantsKey (jsCoerceString (jGet product "id"))) = some s →
        variantsOp renv store st product = ⟨.ok j, st,
          [.cacheGet (variantsKey (jsCoerceString (jGet product "id")))]⟩) := by
  intro renv store st s j h hparse htruthy
  refine ⟨fun limit offset hk => ?_, fun id hk => ?_, fun product raw hraw hk => ?_,
    fun product hk => ?_, fun product hk => ?_⟩
  · simp only [productsOp]
    rw [redisGet_found h hk hparse]
    simp [htruthy]
  · simp only [productOp]
    rw [redisGet_found h hk hparse]
    simp [htruthy]
  · simp only [categoryOp, hraw]
    rw [redisGet_found h hk hparse]
    simp [htruthy]
  · simp only [reviewsOp]
    rw [redisGet_found h hk hparse]
    simp [htruthy]
  · simp only [variantsOp]
    rw [redisGet_found h hk hparse]
    simp [htruthy]

/-- Closed instance of C5 amended: a warm nonempty-array entry is served with
no store query. -/
theorem c5_amended_witness :
    productsOp healthyEnv voidStore
        ⟨[⟨"products:10:0", "[[]]", some 300⟩], [], [], []⟩ 10 0
      = ⟨.ok (.arr [.arr []]), ⟨[⟨"products:10:0", "[[]]", some 300⟩], [], [], []⟩,
        [.cacheGet (productsKey 10 0)]⟩ :=
  ((c5_amended_truthy_hit_short_circuits healthyEnv voidStore
      ⟨[⟨"products:10:0", "[[]]", some 300⟩], [], [], []⟩ "[[]]" (.arr [.arr []])
      rfl rfl rfl).1 10 0 rfl)

/-- C7: a product(id) lookup that reaches the store and finds no row returns
null (a valid, non-exceptional outcome), writes nothing to the cache and
leaves the state unchanged, so a repeated lookup for the same id queries the
store again. -/
theorem c7_not_found_null_not_cached :
    ∀ (renv : RedisEnv) (store : StoreEnv) (st : St) (id : String),
      redisFail renv = none →
      cacheLookup st.cache (productKey id) = none →
      store.run (.productById id) = .ok [] →
      productOp renv store st id
        = ⟨.ok .null, st, [.cacheGet (productKey id), .storeQuery (.productById id)]⟩ ∧
      Ev.storeQuery (.productById id)
        ∈ (productOp renv store (productOp renv store st id).st id).tr := by
  intro renv store st id h hk hstore
  have h1 : productOp renv store st id
      = ⟨.ok .null, st, [.cacheGet (productKey id), .storeQuery (.productById id)]⟩ := by
    simp only [productOp]
    rw [redisGet_absent h hk]
    simp only [isTruthy, Bool.false_eq_true, if_false, reduceIte]
    rw [hstore]
    rfl
  refine ⟨h1, ?_⟩
  rw [h1]
  show Ev.storeQuery (.productById id) ∈ (productOp renv store st id).tr
  rw [h1]
  simp

/-- Closed instance of C7 at concrete inputs. -/
theorem c7_witness :
    productOp healthyEnv voidStore emptySt "42"
      = ⟨.ok .null, emptySt, [.cacheGet (productKey "42"), .storeQuery (.productById "42")]⟩ :=
  (c7_not_found_null_not_cached healthyEnv voidStore emptySt "42" rfl rfl rfl).1

end Shop
namespace Shop

set_option maxRecDepth 100000 in
/-- C4 is false as stated: on a list miss the value written back under
products:10:0 is the raw joined store rows, which differ from the mapped
payload the read returns (the raw row carries category_id, is_active,
category_name and average_rating); a subsequent hit therefore returns the
raw rows, not the payload of the original miss. -/
theorem c4_counterexample :
    cacheLookup (productsOp healthyEnv listStore emptySt 10 0).st.cache (productsKey 10 0)
        = some (jsonStringify (.arr [sampleRow])) ∧
    (productsOp healthyEnv listStore emptySt 10 0).res
        = .ok (.arr [mapProductDBToProduct sampleRow]) ∧
    ¬(Json.arr [sampleRow] = Json.arr [mapProductDBToProduct sampleRow]) ∧
    (productsOp healthyEnv listStore (productsOp healthyEnv listStore emptySt 10 0).st 10 0).res
        = .ok (.arr [sampleRow]) := by
  refine ⟨rfl, rfl, ?_, rfl⟩
  intro h
  exact absurd (congrArg jsonStringify h) (by decide)

/-- C4 amended: on a list miss with store rows, the read returns the mapped
rows while the cache is populated with the raw rows; the subsequent read is
a pure hit returning those raw rows with no store query. -/
theorem c4_amended_miss_caches_raw_rows :
    ∀ (renv : RedisEnv) (store : StoreEnv) (st : St) (limit offset : Int) (rows : List Json),
      redisFail renv = none →
      cacheLookup st.cache (productsKey limit offset) = none →
      store.run (.productsList limit offset) = .ok rows →
      productsOp renv store st limit offset
        = ⟨.ok (.arr (rows.map mapProductDBToProduct)),
            ⟨cacheInsert st.cache (productsKey limit offset)
                (jsonStringify (.arr rows)) (some 300),
              rows.foldl pdInsert st.pd, st.rd, st.vd⟩,
            [.cacheGet (productsKey limit offset), .storeQuery (.productsList limit offset),
              .cacheSet (productsKey limit offset) (jsonStringify (.arr rows)) (some 300)]⟩ ∧
      productsOp renv store (productsOp renv store st limit offset).st limit offset
        = ⟨.ok (.arr rows), (productsOp renv store st limit offset).st,
            [.cacheGet (productsKey limit offset)]⟩ := by
  intro renv store st limit offset rows h hk hstore
  have heq : productsOp renv store st limit offset
      = ⟨.ok (.arr (rows.map mapProductDBToProduct)),
          ⟨cacheInsert st.cache (productsKey limit offset)
              (jsonStringify (.arr rows)) (some 300),
            rows.foldl pdInsert st.pd, st.rd, st.vd⟩,
          [.cacheGet (productsKey limit offset), .storeQuery (.productsList limit offset),
            .cacheSet (productsKey limit offset) (jsonStringify (.arr rows)) (some 300)]⟩ := by
    simp only [productsOp]
    rw [redisGet_absent h hk]
    simp only [isTruthy, Bool.false_eq_true, if_false, reduceIte]
    simp only [hstore]
    rw [redisSet_healthy h]
  refine ⟨heq, ?_⟩
  rw [heq]
  simp only [productsOp]
  rw [redisGet_after_set h]
  rfl

/-- Closed instance of C4 amended at the sample row. -/
theorem c4_amended_witness :
    (productsOp healthyEnv listStore emptySt 10 0).res
        = .ok (.arr ([sampleRow].map mapProductDBToProduct)) := by
  rw [(c4_amended_miss_caches_raw_rows healthyEnv listStore emptySt 10 0 [sampleRow]
    rfl rfl rfl).1]

/-- C9 (implicit side-table coupling): the category child-resolver fails with
the error Product data not found unless this resolver instance has the
product's raw row in its productData side table; product(id) never populates
that table, a warm-cache list hit leaves it unchanged, and only the
cache-miss branch of the list query populates it (with the raw store rows). -/
theorem c9_category_requires_side_table :
    (∀ (renv : RedisEnv) (store : StoreEnv) (st : St) (product : Json),
      pdLookup st.pd product = none →
      categoryOp renv store st product
        = ⟨.error (.appErr "Product data not found"), st, []⟩) ∧
    (∀ (renv : RedisEnv) (store : StoreEnv) (st : St) (id : String),
      (productOp renv store st id).st.pd = st.pd) ∧
    (∀ (renv : RedisEnv) (store : StoreEnv) (st : St) (limit offset : Int) (s : String) (j : Json),
      redisFail renv = none →
      cacheLookup st.cache (productsKey limit offset) = some s →
      jsonParse s = some j → isTruthy j = true →
      (productsOp renv store st limit offset).st.pd = st.pd) ∧
    (∀ (renv : RedisEnv) (store : StoreEnv) (st : St) (limit offset : Int) (rows : List Json),
      redisFail renv = none →
      cacheLookup st.cache (productsKey limit offset) = none →
      store.run (.productsList limit offset) = .ok rows →
      (productsOp renv store st limit offset).st.pd = rows.foldl pdInsert st.pd) := by
  refine ⟨fun renv store st product h => ?_, fun renv store st id => ?_,
    fun renv store st limit offset s j h hk hparse htruthy => ?_,
    fun renv store st limit offset rows h hk hstore => ?_⟩
  · simp only [categoryOp, h]
  · simp only [productOp]
    repeat' split
    all_goals rfl
  · simp only [productsOp]
    rw [redisGet_found h hk hparse]
    simp [htruthy]
  · simp only [productsOp]
    rw [redisGet_absent h hk]
    simp only [isTruthy, Bool.false_eq_true, if_false, reduceIte]
    simp only [hstore]
    rw [redisSet_healthy h]

/-- Closed instances of C9: a fresh resolver instance cannot resolve the
category of a product obtained elsewhere, and the list-miss branch populates
the side table. -/
theorem c9_witness :
    categoryOp healthyEnv voidStore emptySt (mapProductDBToProduct sampleRow)
        = ⟨.error (.appErr "Product data not found"), emptySt, []⟩ ∧
    (productsOp healthyEnv listStore emptySt 10 0).st.pd = [("1", sampleRow)] := by
  constructor
  · exact c9_category_requires_side_table.1 healthyEnv voidStore emptySt
      (mapProductDBToProduct sampleRow) rfl
  · rw [c9_category_requires_side_table.2.2.2 healthyEnv listStore emptySt 10 0 [sampleRow]
      rfl rfl rfl]
    rfl

end Shop
namespace Shop

/-- In a decomposition of A ++ c :: L around an occurrence of x that lies
neither in A nor at c, the prefix contains c. -/
theorem split_after {α : Type} :
    ∀ (A L pre post : List α) (c x : α),
      A ++ c :: L = pre ++ x :: post → x ∉ A → ¬(x = c) → c ∈ pre := by
  intro A
  induction A with
  | nil =>
    intro L pre post c x h hxA hxc
    cases pre with
    | nil =>
      simp at h
      exact absurd h.1.symm hxc
    | cons p pre2 =>
      simp at h
      rw [h.1]
      simp
  | cons a A2 ih =>
    intro L pre post c x h hxA hxc
    cases pre with
    | nil =>
      simp at h
      exact absurd (by rw [← h.1]; simp : x ∈ a :: A2) hxA
    | cons p pre2 =>
      simp at h
      exact List.mem_cons_of_mem p
        (ih L pre2 post c x h.2 (fun hm => hxA (List.mem_cons_of_mem a hm)) hxc)

/-- If the injected variant failure index falls inside the loop's range, the
loop aborts. -/
theorem insertVariantsFrom_fails (tenv : TxEnv) (pid : String) :
    ∀ (vs : List VInput) (j i : Nat), tenv.variantFailAt = some i → j ≤ i →
      i < j + vs.length → (insertVariantsFrom tenv pid vs j).1 = none := by
  intro vs
  induction vs with
  | nil =>
    intro j i h1 h2 h3
    simp at h3
    omega
  | cons v vs ih =>
    intro j i h1 h2 h3
    by_cases hj : i = j
    · subst hj
      simp [insertVariantsFrom, h1]
    · have hne : ¬(tenv.variantFailAt = some j) := by
        rw [h1]
        simp
        omega
      simp only [insertVariantsFrom, hne, if_false, reduceIte]
      rcases hres : insertVariantsFrom tenv pid vs (j + 1) with ⟨o, evs⟩
      have ho : o = none := by
        have hcall := ih (j + 1) i h1 (by omega) (by simp at h3 ⊢; omega)
        rw [hres] at hcall
        exact hcall
      subst ho
      rfl

/-- C2: when a store statement inside the createProduct transaction throws
(the product INSERT, a reached variant INSERT, COMMIT, or BEGIN itself),
ROLLBACK is issued, no cache delete happens, the store error propagates to
the caller and no state changes; and in every run whatsoever, a cache delete
can only occur strictly after a successful COMMIT. -/
theorem c2_failed_mutation_never_invalidates :
    ∀ (renv : RedisEnv) (tenv : TxEnv) (db : DBState) (st : St) (input : PInput),
      (validInput input = true → txFailureInjected tenv input = true →
        (createProductOp renv tenv db st input).res = .error .storeErr ∧
        Ev.txRollback ∈ (createProductOp renv tenv db st input).tr ∧
        (∀ k, Ev.cacheDel k ∉ (createProductOp renv tenv db st input).tr) ∧
        Ev.txCommit ∉ (createProductOp renv tenv db st input).tr ∧
        (createProductOp renv tenv db st input).db = db ∧
        (createProductOp renv tenv db st input).st = st) ∧
      (∀ (k : String) (pre post : List Ev),
        (createProductOp renv tenv db st input).tr = pre ++ Ev.cacheDel k :: post →
        Ev.txCommit ∈ pre) := by
  intro renv tenv db st input
  by_cases hval : validInput input = true
  · by_cases hb : tenv.beginFail
    · have heq : createProductOp renv tenv db st input
          = ⟨.error .storeErr, db, st, [.txRollback]⟩ := by
        simp [createProductOp, hval, hb]
      constructor
      · intro _ _
        rw [heq]
        exact ⟨rfl, by simp, fun k => by simp, by simp, rfl, rfl⟩
      · intro k pre post hdec
        rw [heq] at hdec
        have hdec2 : ([Ev.txRollback] : List Ev) = pre ++ Ev.cacheDel k :: post := hdec
        have hmem : Ev.cacheDel k ∈ ([Ev.txRollback] : List Ev) := by
          rw [hdec2]
          simp
        simp at hmem
    · by_cases hi : tenv.insertFail
      · have heq : createProductOp renv tenv db st input
            = ⟨.error .storeErr, db, st, [.txBegin, .txStmt "insertProduct", .txRollback]⟩ := by
          simp [createProductOp, hval, hb, hi]
        constructor
        · intro _ _
          rw [heq]
          exact ⟨rfl, by simp, fun k => by simp, by simp, rfl, rfl⟩
        · intro k pre post hdec
          rw [heq] at hdec
          have hdec2 : ([Ev.txBegin, Ev.txStmt "insertProduct", Ev.txRollback] : List Ev)
              = pre ++ Ev.cacheDel k :: post := hdec
          have hmem : Ev.cacheDel k
              ∈ ([Ev.txBegin, Ev.txStmt "insertProduct", Ev.txRollback] : List Ev) := by
            rw [hdec2]
            simp
          simp at hmem
      · rcases hres : insertVariantsFrom tenv tenv.newId
            (match input.variants with | none => [] | some vs => vs) 0 with ⟨o, evs⟩
        have hevs : ∀ e ∈ evs, e = Ev.txStmt "insertVariant" := fun e he =>
          insertVariantsFrom_events tenv tenv.newId _ 0 e (by rw [hres]; exact he)
        cases o with
        | none =>
          have heq : createProductOp renv tenv db st input
              = ⟨.error .storeErr, db, st,
                  .txBegin :: .txStmt "insertProduct" :: (evs ++ [.txRollback])⟩ := by
            simp [createProductOp, hval, hb, hi, hres]
          constructor
          · intro _ _
            rw [heq]
            refine ⟨rfl, by simp, fun k => ?_, ?_, rfl, rfl⟩
            · intro hk
              simp at hk
              exact Ev.noConfusion (hevs _ hk)
            · intro hk
              simp at hk
              exact Ev.noConfusion (hevs _ hk)
          · intro k pre post hdec
            rw [heq] at hdec
            have hdec2 : Ev.txBegin :: Ev.txStmt "insertProduct" :: (evs ++ [Ev.txRollback])
                = pre ++ Ev.cacheDel k :: post := hdec
            have hmem : Ev.cacheDel k
                ∈ (Ev.txBegin :: Ev.txStmt "insertProduct" :: (evs ++ [Ev.txRollback])) := by
              rw [hdec2]
              simp
            simp at hmem
            exact Ev.noConfusion (hevs _ hmem)
        | some rows =>
          by_cases hc : tenv.commitFail
          · have heq : createProductOp renv tenv db st input
                = ⟨.error .storeErr, db, st,
                    .txBegin :: .txStmt "insertProduct" :: (evs ++ [.txRollback])⟩ := by
              simp [createProductOp, hval, hb, hi, hres, hc]
            constructor
            · intro _ _
              rw [heq]
              refine ⟨rfl, by simp, fun k => ?_, ?_, rfl, rfl⟩
              · intro hk
                simp at hk
                exact Ev.noConfusion (hevs _ hk)
              · intro hk
                simp at hk
                exact Ev.noConfusion (hevs _ hk)
            · intro k pre post hdec
              rw [heq] at hdec
              have hdec2 : Ev.txBegin :: Ev.txStmt "insertProduct" :: (evs ++ [Ev.txRollback])
                  = pre ++ Ev.cacheDel k :: post := hdec
              have hmem : Ev.cacheDel k
                  ∈ (Ev.txBegin :: Ev.txStmt "insertProduct" :: (evs ++ [Ev.txRollback])) := by
                rw [hdec2]
                simp
              simp at hmem
              exact Ev.noConfusion (hevs _ hmem)
          · constructor
            · intro _ hfail
              exfalso
              simp [txFailureInjected, hb, hi, hc] at hfail
              rcases hva : tenv.variantFailAt with _ | i
              · rw [hva] at hfail
                simp at hfail
              · rw [hva] at hfail
                simp at hfail
                rcases hv2 : input.variants with _ | vs0
                · rw [hv2] at hfail
                  simp at hfail
                · rw [hv2] at hfail hres
                  simp only at hfail hres
                  have hnone := insertVariantsFrom_fails tenv tenv.newId vs0 0 i hva
                    (Nat.zero_le i) (by omega)
                  rw [hres] at hnone
                  simp at hnone
            · intro k pre post hdec
              have hxA : Ev.cacheDel k ∉ (Ev.txBegin :: Ev.txStmt "insertProduct" :: evs) := by
                intro hx
                simp at hx
                exact Ev.noConfusion (hevs _ hx)
              rcases hdel : redisDel renv st.cache ["products:*"] with e | c2
              · have heq : (createProductOp renv tenv db st input).tr
                    = (Ev.txBegin :: Ev.txStmt "insertProduct" :: evs)
                        ++ Ev.txCommit :: [Ev.cacheDel "products:*", Ev.txRollback] := by
                  simp [createProductOp, hval, hb, hi, hres, hc, hdel]
                rw [heq] at hdec
                exact split_after _ _ pre post _ _ hdec hxA (by simp)
              · have heq : (createProductOp renv tenv db st input).tr
                    = (Ev.txBegin :: Ev.txStmt "insertProduct" :: evs)
                        ++ Ev.txCommit :: [Ev.cacheDel "products:*"] := by
                  simp [createProductOp, hval, hb, hi, hres, hc, hdel]
                rw [heq] at hdec
                exact split_after _ _ pre post _ _ hdec hxA (by simp)
  · have hv : validInput input = false := by
      simpa using hval
    have heq : createProductOp renv tenv db st input
        = ⟨.error .validationErr, db, st, []⟩ := by
      simp [createProductOp, hv]
    constructor
    · intro hcontra _
      exact absurd hcontra hval
    · intro k pre post hdec
      rw [heq] at hdec
      simp at hdec

/-- Closed instance of C2: a failing product INSERT rolls back, deletes
nothing from the cache and surfaces the store error. -/
theorem c2_witness :
    (createProductOp healthyEnv ⟨"abc123", false, true, none, false⟩ emptyDB warmListSt
        sampleInput).res = .error .storeErr ∧
    Ev.txRollback ∈ (createProductOp healthyEnv ⟨"abc123", false, true, none, false⟩ emptyDB
        warmListSt sampleInput).tr ∧
    (createProductOp healthyEnv ⟨"abc123", false, true, none, false⟩ emptyDB warmListSt
        sampleInput).st = warmListSt := by
  have h := (c2_failed_mutation_never_invalidates healthyEnv
    ⟨"abc123", false, true, none, false⟩ emptyDB warmListSt sampleInput).1 (by decide) (by decide)
  exact ⟨h.1, h.2.1, h.2.2.2.2.2⟩

end Shop
namespace Shop

/-- C8: createProduct is atomic across the product row and all variant rows:
under a valid input with variants, either every failure leaves the tables
unchanged with ROLLBACK issued, no COMMIT, and the error surfaced, or the
product row and one row per variant are all committed together, with exactly
one BEGIN and one COMMIT in the trace. -/
theorem c8_createProduct_atomic :
    ∀ (renv : RedisEnv) (tenv : TxEnv) (db : DBState) (st : St) (input : PInput)
      (vs : List VInput),
      input.variants = some vs → validInput input = true →
      ((createProductOp renv tenv db st input).db = db ∧
        Ev.txCommit ∉ (createProductOp renv tenv db st input).tr ∧
        Ev.txRollback ∈ (createProductOp renv tenv db st input).tr ∧
        ∃ e, (createProductOp renv tenv db st input).res = .error e) ∨
      ((createProductOp renv tenv db st input).db
          = ⟨db.products ++ [newProductRow tenv input],
              db.productVariants ++ vs.map (variantRow tenv.newId)⟩ ∧
        (createProductOp renv tenv db st input).tr.count Ev.txBegin = 1 ∧
        (createProductOp renv tenv db st input).tr.count Ev.txCommit = 1) := by
  intro renv tenv db st input vs hvar hval
  by_cases hb : tenv.beginFail
  · left
    have heq : createProductOp renv tenv db st input
        = ⟨.error .storeErr, db, st, [.txRollback]⟩ := by
      simp [createProductOp, hval, hb]
    rw [heq]
    exact ⟨rfl, by simp, by simp, .storeErr, rfl⟩
  · by_cases hi : tenv.insertFail
    · left
      have heq : createProductOp renv tenv db st input
          = ⟨.error .storeErr, db, st, [.txBegin, .txStmt "insertProduct", .txRollback]⟩ := by
        simp [createProductOp, hval, hb, hi]
      rw [heq]
      exact ⟨rfl, by simp, by simp, .storeErr, rfl⟩
    · rcases hres : insertVariantsFrom tenv tenv.newId vs 0 with ⟨o, evs⟩
      have hevs : ∀ e ∈ evs, e = Ev.txStmt "insertVariant" := fun e he =>
        insertVariantsFrom_events tenv tenv.newId vs 0 e (by rw [hres]; exact he)
      cases o with
      | none =>
        left
        have heq : createProductOp renv tenv db st input
            = ⟨.error .storeErr, db, st,
                .txBegin :: .txStmt "insertProduct" :: (evs ++ [.txRollback])⟩ := by
          simp [createProductOp, hval, hb, hi, hvar, hres]
        rw [heq]
        refine ⟨rfl, ?_, by simp, .storeErr, rfl⟩
        intro hk
        simp at hk
        exact Ev.noConfusion (hevs _ hk)
      | some rows =>
        have hrows : rows = vs.map (variantRow tenv.newId) :=
          insertVariantsFrom_some tenv tenv.newId vs 0 rows (by rw [hres])
        by_cases hc : tenv.commitFail
        · left
          have heq : createProductOp renv tenv db st input
              = ⟨.error .storeErr, db, st,
                  .txBegin :: .txStmt "insertProduct" :: (evs ++ [.txRollback])⟩ := by
            simp [createProductOp, hval, hb, hi, hvar, hres, hc]
          rw [heq]
          refine ⟨rfl, ?_, by simp, .storeErr, rfl⟩
          intro hk
          simp at hk
          exact Ev.noConfusion (hevs _ hk)
        · right
          have hcb : evs.count Ev.txBegin = 0 :=
            List.count_eq_zero.mpr (fun hmem => Ev.noConfusion (hevs _ hmem))
          have hcc : evs.count Ev.txCommit = 0 :=
            List.count_eq_zero.mpr (fun hmem => Ev.noConfusion (hevs _ hmem))
          rcases hdel : redisDel renv st.cache ["products:*"] with e | c2
          · have heq : createProductOp renv tenv db st input
                = ⟨.error (.cacheErr e),
                    ⟨db.products ++ [newProductRow tenv input], db.productVariants ++ rows⟩, st,
                    .txBegin :: .txStmt "insertProduct"
                      :: (evs ++ [.txCommit, .cacheDel "products:*", .txRollback])⟩ := by
              simp [createProductOp, hval, hb, hi, hvar, hres, hc, hdel]
            rw [heq, hrows]
            refine ⟨rfl, ?_, ?_⟩ <;>
              simp [List.count_cons, List.count_append, hcb, hcc]
          · have heq : createProductOp renv tenv db st input
                = ⟨.ok (newProductRow tenv input),
                    ⟨db.products ++ [newProductRow tenv input], db.productVariants ++ rows⟩,
                    { st with cache := c2 },
                    .txBegin :: .txStmt "insertProduct"
                      :: (evs ++ [.txCommit, .cacheDel "products:*"])⟩ := by
              simp [createProductOp, hval, hb, hi, hvar, hres, hc, hdel]
            rw [heq, hrows]
            refine ⟨rfl, ?_, ?_⟩ <;>
              simp [List.count_cons, List.count_append, hcb, hcc]

/-- Closed instance of C8 at the sample input (one variant, all statements
succeeding). -/
theorem c8_witness :
    ((createProductOp healthyEnv okTx emptyDB emptySt sampleInput).db = emptyDB ∧
      Ev.txCommit ∉ (createProductOp healthyEnv okTx emptyDB emptySt sampleInput).tr ∧
      Ev.txRollback ∈ (createProductOp healthyEnv okTx emptyDB emptySt sampleInput).tr ∧
      ∃ e, (createProductOp healthyEnv okTx emptyDB emptySt sampleInput).res = .error e) ∨
    ((createProductOp healthyEnv okTx emptyDB emptySt sampleInput).db
        = ⟨emptyDB.products ++ [newProductRow okTx sampleInput],
            emptyDB.productVariants
              ++ [(⟨"rot", "M", 40, 5⟩ : VInput)].map (variantRow okTx.newId)⟩ ∧
      (createProductOp healthyEnv okTx emptyDB emptySt sampleInput).tr.count Ev.txBegin = 1 ∧
      (createProductOp healthyEnv okTx emptyDB emptySt sampleInput).tr.count Ev.txCommit = 1) :=
  c8_createProduct_atomic healthyEnv okTx emptyDB emptySt sampleInput
    [⟨"rot", "M", 40, 5⟩] rfl (by decide)

/-- C6: every cache key a read path touches is exactly the declared template
instantiated at that read's arguments: products:{limit}:{offset},
product:{id}, category:{id}, reviews:{productId} and variants:{productId};
no other key shape is read or written by these paths. -/
theorem c6_cache_keys_match_templates :
    ∀ (renv : RedisEnv) (store : StoreEnv) (st : St) (limit offset : Int) (id : String)
      (product : Json),
      (∀ k ∈ evKeys (productsOp renv store st limit offset).tr,
        k = "products:" ++ toString limit ++ ":" ++ toString offset) ∧
      (∀ k ∈ evKeys (productOp renv store st id).tr, k = "product:" ++ id) ∧
      (∀ k ∈ evKeys (categoryOp renv store st product).tr,
        k = "category:" ++ jsCoerceString
          ((pdLookup st.pd product).bind (fun raw => jGet raw "category_id"))) ∧
      (∀ k ∈ evKeys (reviewsOp renv store st product).tr,
        k = "reviews:" ++ jsCoerceString (jGet product "id")) ∧
      (∀ k ∈ evKeys (variantsOp renv store st product).tr,
        k = "variants:" ++ jsCoerceString (jGet product "id")) := by
  intro renv store st limit offset id product
  refine ⟨fun k1 hk1 => ?_, fun k2 hk2 => ?_, fun k3 hk3 => ?_,
    fun k4 hk4 => ?_, fun k5 hk5 => ?_⟩
  · simp only [productsOp] at hk1
    repeat' split at hk1
    all_goals (simp [evKeys] at hk1; exact hk1)
  · simp only [productOp] at hk2
    repeat' split at hk2
    all_goals (simp [evKeys] at hk2; exact hk2)
  · simp only [categoryOp] at hk3
    repeat' split at hk3
    all_goals simp_all [evKeys, categoryKey]
  · simp only [reviewsOp] at hk4
    repeat' split at hk4
    all_goals (simp [evKeys] at hk4; exact hk4)
  · simp only [variantsOp] at hk5
    repeat' split at hk5
    all_goals (simp [evKeys] at hk5; exact hk5)

end Shop
namespace Shop

/-- Closed instance of C6: the key the paginated read touches on a miss is
the instantiated template. -/
theorem c6_witness :
    "products:10:0" = "products:" ++ toString (10 : Int) ++ ":" ++ toString (0 : Int) :=
  (c6_cache_keys_match_templates healthyEnv voidStore emptySt 10 0 "x" Json.null).1
    "products:10:0" (by decide)

end Shop
